import Mathlib

/-!
Verification development for the picartTool archive-processing pipeline.

Each definition is a shallow embedding of the corresponding Python function
from the repository sources (utils.py, file_processor.py, api_handler.py,
compression_handler.py, image_processor.py).  Strings are modelled as
`List Char`; machine effects (subprocess runs, HTTP calls, the filesystem)
are modelled by explicit outcome oracles.  Character classes written `\d`,
`\s`, `\w` in the Python regexes are modelled over the ASCII ranges plus the
CJK-ideograph block U+4E00..U+9FFF that the code manipulates explicitly
(Python's full Unicode tables for exotic numerals and letters are out of
scope of this embedding).
-/

namespace Picart

/-! ## Character classes -/

/-- Python regex `\s` (common whitespace: space, tab, newline, CR, VT, FF). -/
def isSpaceA (c : Char) : Bool :=
  c = ' ' || c = '\t' || c = '\n' || c = '\r' || c.toNat = 11 || c.toNat = 12

/-- CJK unified ideographs, the range `一-鿿` used in the sources. -/
def isCJK (c : Char) : Bool :=
  decide (0x4e00 ≤ c.toNat) && decide (c.toNat ≤ 0x9fff)

/-- Python regex `\w`, modelled for the ASCII and CJK ranges in play. -/
def isWordA (c : Char) : Bool :=
  c.isAlphanum || c = '_' || isCJK c

/-- ASCII lower-casing, modelling `str.lower` on the ASCII letters used. -/
def lowc (c : Char) : Char :=
  if 'A' ≤ c ∧ c ≤ 'Z' then Char.ofNat (c.toNat + 32) else c

/-! ## utils.FileNameCleaner.clean_filename

Each `stepN` / matcher below embeds one regex substitution of
`clean_filename` (utils.py lines 18-68), in the order the Python code
applies them.  A matcher returns `some n` when the pattern matches at the
head of the list, where `n + 1` characters are consumed; `scanSub` is
`re.sub(pattern, '')`: it walks the text left to right, removing every
leftmost match.  The fuel argument starts at the text length; a match always
consumes at least one character, so the fuel never runs out before the text
does. -/

/-- Length of the leading digit run (regex `\d+`, matched greedily). -/
def dCount (l : List Char) : Nat := (l.takeWhile Char.isDigit).length

/-- Global removal of every leftmost match of `m` (Python `re.sub(p, '')`). -/
def scanSub (m : List Char → Option Nat) : Nat → List Char → List Char
  | _, [] => []
  | 0, l => l
  | fuel + 1, c :: cs =>
    match m (c :: cs) with
    | some n => scanSub m fuel ((c :: cs).drop (n + 1))
    | none => c :: scanSub m fuel cs

/-- Separator class of step 1: `[_\s-]`. -/
def isSep1 (c : Char) : Bool := c = '_' || c = '-' || isSpaceA c

/-- Step 1: `re.sub(r'^\d+[_\s-]+', '', filename)` — strip a leading numeric
prefix followed by separators (anchored, so at most one removal). -/
def step1 (l : List Char) : List Char :=
  let d := l.takeWhile Char.isDigit
  let r := l.dropWhile Char.isDigit
  if d.isEmpty then l
  else if (r.takeWhile isSep1).isEmpty then l
  else r.dropWhile isSep1

/-- Step 2: when the name starts with `#` and a second `#` occurs, the result
is the text strictly between the first and second `#` (the Python code is
`filename[1:].split('#')[0]`, which drops everything from the second `#`
on). -/
def step2 (l : List Char) : List Char :=
  match l with
  | '#' :: t => if t.contains '#' then t.takeWhile (fun c => c != '#') else l
  | _ => l

/-- Matcher for `\d+P\d*V?` (case-sensitive). -/
def m3a (l : List Char) : Option Nat :=
  let d := dCount l
  if d = 0 then none
  else
    match l.drop d with
    | 'P' :: r2 =>
      let d2 := dCount r2
      match r2.drop d2 with
      | 'V' :: _ => some (d + d2 + 1)
      | _ => some (d + d2)
    | _ => none

/-- Matcher for `P\d+` (case-sensitive). -/
def m3b : List Char → Option Nat
  | 'P' :: r => (fun d => if d = 0 then none else some d) (dCount r)
  | _ => none

/-- Word-boundary `\b` immediately after a word character: the next character
must be absent or a non-word character. -/
def bdry (r : List Char) : Bool :=
  match r with
  | [] => true
  | c :: _ => !(isWordA c)

/-- Tail of size pattern (a): `\s*(?:KB|MB|GB|TB)\b`, case-insensitive;
returns the number of characters it consumes. -/
def m4aTail (r : List Char) : Option Nat :=
  let w := (r.takeWhile isSpaceA).length
  match r.drop w with
  | c1 :: c2 :: rest =>
    if (lowc c1 = 'k' || lowc c1 = 'm' || lowc c1 = 'g' || lowc c1 = 't')
        && lowc c2 = 'b' && bdry rest
    then some (w + 2) else none
  | _ => none

/-- Matcher for size pattern (a): `\d+(?:\.\d+)?\s*(?:KB|MB|GB|TB)\b`.  The
optional fractional part is tried greedily first, then dropped, as the
backtracking regex engine does. -/
def m4a (l : List Char) : Option Nat :=
  let d := dCount l
  if d = 0 then none
  else
    let r1 := l.drop d
    let withFrac : Option Nat :=
      match r1 with
      | '.' :: r2 =>
        let f := dCount r2
        if f = 0 then none
        else (m4aTail (r2.drop f)).map (fun t => d + 1 + f + t)
      | _ => none
    match withFrac with
    | some tot => some (tot - 1)
    | none => (m4aTail r1).map (fun t => d + t - 1)

/-- Tail of size pattern (b): `\s*[MGT]?B\b`, case-insensitive, the optional
unit letter tried greedily first. -/
def m4bTail (r : List Char) : Option Nat :=
  let w := (r.takeWhile isSpaceA).length
  match r.drop w with
  | c1 :: c2 :: rest =>
    if (lowc c1 = 'm' || lowc c1 = 'g' || lowc c1 = 't') && lowc c2 = 'b' && bdry rest
    then some (w + 2)
    else if lowc c1 = 'b' && bdry (c2 :: rest) then some (w + 1)
    else none
  | [c1] => if lowc c1 = 'b' then some (w + 1) else none
  | [] => none

/-- Matcher for size pattern (b): `\d+(?:\.\d+)?\s*[MGT]?B\b`. -/
def m4b (l : List Char) : Option Nat :=
  let d := dCount l
  if d = 0 then none
  else
    let r1 := l.drop d
    let withFrac : Option Nat :=
      match r1 with
      | '.' :: r2 =>
        let f := dCount r2
        if f = 0 then none
        else (m4bTail (r2.drop f)).map (fun t => d + 1 + f + t)
      | _ => none
    match withFrac with
    | some tot => some (tot - 1)
    | none => (m4bTail r1).map (fun t => d + t - 1)

/-- Unit part `[MGT]?B` (no boundary), case-insensitive; consumed length. -/
def mgtbUnit (r : List Char) : Option Nat :=
  match r with
  | c1 :: c2 :: _ =>
    if (lowc c1 = 'm' || lowc c1 = 'g' || lowc c1 = 't') && lowc c2 = 'b' then some 2
    else if lowc c1 = 'b' then some 1
    else none
  | [c1] => if lowc c1 = 'b' then some 1 else none
  | [] => none

/-- Matcher for size pattern (c): `_\d+[MGT]?B_?`, case-insensitive. -/
def m4c : List Char → Option Nat
  | '_' :: r =>
    let d := dCount r
    if d = 0 then none
    else
      match mgtbUnit (r.drop d) with
      | none => none
      | some u =>
        match (r.drop d).drop u with
        | '_' :: _ => some (d + u + 1)
        | _ => some (d + u)
  | _ => none

/-- Unit part `[MGT]?B\b` (with the word boundary), case-insensitive. -/
def mgtbUnitB (r : List Char) : Option Nat :=
  match r with
  | c1 :: c2 :: rest =>
    if (lowc c1 = 'm' || lowc c1 = 'g' || lowc c1 = 't') && lowc c2 = 'b' && bdry rest
    then some 2
    else if lowc c1 = 'b' && bdry (c2 :: rest) then some 1
    else none
  | [c1] => if lowc c1 = 'b' then some 1 else none
  | [] => none

/-- Size pattern (d): `^\d+[MGT]?B\b` — anchored, so applied once at the
start rather than scanned. -/
def step4d (l : List Char) : List Char :=
  let d := dCount l
  if d = 0 then l
  else
    match mgtbUnitB (l.drop d) with
    | some u => l.drop (d + u)
    | none => l

/-- Matcher for a bracketed span `open[^close]*close` (one bracket style). -/
def mBr (openC closeC : Char) : List Char → Option Nat
  | c :: r =>
    if c = openC then
      let k := (r.takeWhile (fun x => x != closeC)).length
      match r.drop k with
      | c2 :: _ => if c2 = closeC then some (k + 1) else none
      | [] => none
    else none
  | [] => none

/-- Character class of step 6: `[A-Za-z0-9一-鿿]`. -/
def isW6 (c : Char) : Bool := c.isAlphanum || isCJK c

/-- Matcher for step 6: `\d+_[A-Za-z0-9一-鿿]+`. -/
def m6 (l : List Char) : Option Nat :=
  let d := dCount l
  if d = 0 then none
  else
    match l.drop d with
    | '_' :: r2 =>
      let k := (r2.takeWhile isW6).length
      if k = 0 then none else some (d + k)
    | _ => none

/-- Step 7 keeps word characters, whitespace, CJK, hyphen and the preserved
bracket and parenthesis characters; everything else is removed. -/
def keep7 (c : Char) : Bool :=
  isWordA c || isSpaceA c || isCJK c || c = '-' ||
  c = '(' || c = ')' || c = '[' || c = ']' ||
  c = '（' || c = '）' || c = '【' || c = '】' ||
  c = '「' || c = '」' || c = '『' || c = '』'

/-- Step 8a: `re.sub(r'\s+', ' ', ..)` — each maximal whitespace run becomes
a single space. -/
def collapseWs : List Char → List Char
  | [] => []
  | [c] => if isSpaceA c then [' '] else [c]
  | c1 :: c2 :: cs =>
    if isSpaceA c1 && isSpaceA c2 then collapseWs (c2 :: cs)
    else (if isSpaceA c1 then ' ' else c1) :: collapseWs (c2 :: cs)

/-- Trailing-separator class of step 8b: `[-_\s]`. -/
def isTrail (c : Char) : Bool := c = '-' || c = '_' || isSpaceA c

/-- Step 8b: `re.sub(r'[-_\s]+$', '', ..)` — strip the trailing run. -/
def rstripTrail (l : List Char) : List Char :=
  (l.reverse.dropWhile isTrail).reverse

/-- Step 8c: `str.strip()` — whitespace stripped from both ends. -/
def stripWs (l : List Char) : List Char :=
  ((l.dropWhile isSpaceA).reverse.dropWhile isSpaceA).reverse

/-- The eight cleaning steps of `clean_filename`, in source order, without
the final empty-name fallback. -/
def cleanSteps (l0 : List Char) : List Char :=
  let l1 := step1 l0
  let l2 := step2 l1
  let l3 := scanSub m3a l2.length l2
  let l3b := scanSub m3b l3.length l3
  let l4a := scanSub m4a l3b.length l3b
  let l4b := scanSub m4b l4a.length l4a
  let l4c := scanSub m4c l4b.length l4b
  let l4d := step4d l4c
  let l5a := scanSub (mBr '[' ']') l4d.length l4d
  let l5b := scanSub (mBr '【' '】') l5a.length l5a
  let l5c := scanSub (mBr '「' '」') l5b.length l5b
  let l5d := scanSub (mBr '『' '』') l5c.length l5c
  let l6 := scanSub m6 l5d.length l5d
  let l7 := l6.filter keep7
  stripWs (rstripTrail (collapseWs l7))

/-- The fallback name `f"unnamed_{int(time.time())}"`; `now` is the clock
reading in unix seconds at the moment of the call. -/
def unnamedFallback (now : Nat) : List Char :=
  'u' :: 'n' :: 'n' :: 'a' :: 'm' :: 'e' :: 'd' :: '_' :: (Nat.repr now).toList

/-- `FileNameCleaner.clean_filename` (utils.py lines 18-68), with the call
time made explicit: the cleaning steps, then the generated fallback when the
result is empty. -/
def clean_filename (now : Nat) (l : List Char) : List Char :=
  let r := cleanSteps l
  if r = [] then unnamedFallback now else r

/-! ## Natural sort keys

`re.split('([0-9]+)', text)` splits a string into alternating non-digit and
digit chunks (the first and last chunks possibly empty); `tryint` turns every
chunk that `int()` accepts into a number.  A key element is therefore either
a string or a number.  Comparison of two keys is Python's lexicographic list
comparison.  Comparing a number element against a string element would raise
`TypeError` in Python; it cannot happen between two keys produced by the
same key function, because chunk types alternate by position, so the
cross-type case below is given an arbitrary value. -/

/-- One element of a natural sort key: a string chunk or a parsed number. -/
inductive NKey where
  | s : List Char → NKey
  | n : Nat → NKey
deriving DecidableEq

/-- Numeric value of a digit run (what `int()` returns on it). -/
def digitsVal (l : List Char) : Nat :=
  l.foldl (fun a c => 10 * a + (c.toNat - 48)) 0

/-- `tryint`: a non-empty all-digit chunk becomes a number, anything else
(including the empty chunk, which `int('')` rejects) stays a string. -/
def tryint (c : List Char) : NKey :=
  if c ≠ [] ∧ c.all Char.isDigit then .n (digitsVal c) else .s c

/-- Worker for `re.split('([0-9]+)', text)`: `inDigits` says whether the
current chunk `cur` (kept reversed) is a digit run. -/
def srGo : Bool → List Char → List Char → List (List Char)
  | false, cur, [] => [cur.reverse]
  | true, cur, [] => [cur.reverse, []]
  | false, cur, c :: cs =>
    if c.isDigit then cur.reverse :: srGo true [c] cs
    else srGo false (c :: cur) cs
  | true, cur, c :: cs =>
    if c.isDigit then srGo true (c :: cur) cs
    else cur.reverse :: srGo false [c] cs

/-- `re.split('([0-9]+)', text)`: alternating non-digit and digit chunks,
beginning and ending with a (possibly empty) non-digit chunk. -/
def splitRuns (l : List Char) : List (List Char) := srGo false [] l

/-- Three-way comparison of characters by code point (Python `str` order). -/
def chrCmp (a b : Char) : Ordering := compare a.toNat b.toNat

/-- Python's lexicographic sequence comparison (shorter prefix is smaller). -/
def lexCmp (cmp : α → α → Ordering) : List α → List α → Ordering
  | [], [] => .eq
  | [], _ :: _ => .lt
  | _ :: _, [] => .gt
  | a :: as, b :: bs =>
    match cmp a b with
    | .eq => lexCmp cmp as bs
    | o => o

/-- Comparison of key elements: numbers numerically, strings as Python
strings.  The cross-type cases are unreachable between two keys of the same
key function (Python would raise `TypeError` there). -/
def keyCmp : NKey → NKey → Ordering
  | .n a, .n b => compare a b
  | .s a, .s b => lexCmp chrCmp a b
  | .n _, .s _ => .lt
  | .s _, .n _ => .gt

/-- `FileProcessor._natural_sort_key` (file_processor.py lines 365-372): the
whole text — directory components included — is split into runs. -/
def natKeyFP (text : List Char) : List NKey := (splitRuns text).map tryint

/-- Comparison of two texts under the renaming comparator. -/
def fpCmp (a b : List Char) : Ordering := lexCmp keyCmp (natKeyFP a) (natKeyFP b)

/-! ## Path helpers (os.path / pathlib) -/

/-- Path separator (the code runs `os.path` on Windows and posix; both `/`
and `\` are treated as separators, drive letters are out of scope). -/
def isPathSep (c : Char) : Bool := c = '/' || c = '\\'

/-- `os.path.split`: the tail is everything after the last separator; the
head keeps its trailing separators only when it consists of nothing else. -/
def ospSplit (p : List Char) : List Char × List Char :=
  let revp := p.reverse
  let tailRev := revp.takeWhile (fun c => !(isPathSep c))
  let head0 := (revp.drop tailRev.length).reverse
  let head :=
    if head0.all isPathSep then head0
    else (head0.reverse.dropWhile isPathSep).reverse
  (head, tailRev.reverse)

/-- `os.path.basename`. -/
def basenameP (p : List Char) : List Char := (ospSplit p).2

/-- `APIHandler._natural_sort_key` (api_handler.py lines 249-259): the
directory part is kept whole as the first element and only the filename is
split into runs. -/
def natKeyAPI (text : List Char) : List NKey :=
  let dn := (ospSplit text).1
  let fn := (ospSplit text).2
  .s dn :: (splitRuns fn).map tryint

/-- Comparison of two paths under the upload-ordering comparator. -/
def apiCmp (a b : List Char) : Ordering := lexCmp keyCmp (natKeyAPI a) (natKeyAPI b)

/-- `pathlib.PurePath.suffix` on a bare file name: the part from the last
dot, unless that dot is the first or the last character. -/
def pySuffix (name : List Char) : List Char :=
  let revName := name.reverse
  let tailRev := revName.takeWhile (fun c => c != '.')
  if tailRev.length = revName.length then []
  else if tailRev.length + 1 = revName.length then []
  else if tailRev.isEmpty then []
  else '.' :: tailRev.reverse

/-- `os.path.splitext(..)[0]`: the name without its extension; the extension
starts at the last dot of the basename provided some earlier character of the
basename is not a dot. -/
def splitextRoot (p : List Char) : List Char :=
  let revp := p.reverse
  let tailRev := revp.takeWhile (fun c => !(isPathSep c))
  let base := tailRev.reverse
  let afterDotRev := tailRev.takeWhile (fun c => c != '.')
  if afterDotRev.length = tailRev.length then p
  else
    let stemLen := tailRev.length - afterDotRev.length - 1
    if (base.take stemLen).all (fun c => c = '.') then p
    else p.take (p.length - afterDotRev.length - 1)

/-- True when the first character, if any, is not a digit (used to state
that a numeric run is maximal on its right). -/
def headDigitFree (l : List Char) : Bool :=
  match l.head? with
  | none => true
  | some c => !c.isDigit

/-- True when the last character, if any, is not a digit (used to state that
a numeric run is maximal on its left). -/
def lastDigitFree (l : List Char) : Bool :=
  match l.getLast? with
  | none => true
  | some c => !c.isDigit

/-! ### Lemmas about the run splitter and key comparison -/

lemma srGo_digits (a q : List Char) (had : a.all Char.isDigit = true)
    (hq : headDigitFree q = true) :
    ∀ acc : List Char, srGo true acc (a ++ q) = (acc.reverse ++ a) :: splitRuns q := by
  induction a with
  | nil =>
    intro acc
    match q, hq with
    | [], _ => simp [srGo, splitRuns]
    | c :: cs, hq =>
      have hc : c.isDigit = false := by
        simpa [headDigitFree] using hq
      simp [srGo, hc, splitRuns]
  | cons d ds ih =>
    intro acc
    rw [List.all_cons, Bool.and_eq_true] at had
    obtain ⟨hd, hds⟩ := had
    simp only [List.cons_append, srGo, hd, if_pos, List.append_eq]
    rw [ih hds (d :: acc)]
    simp

lemma srGo_append (a q : List Char) (ha : a ≠ []) (had : a.all Char.isDigit = true)
    (hq : headDigitFree q = true) :
    ∀ (p : List Char) (mode : Bool) (acc : List Char),
      (mode = true → p ≠ []) → lastDigitFree p = true →
      srGo mode acc (p ++ a ++ q) = srGo mode acc p ++ a :: splitRuns q := by
  intro p
  induction p with
  | nil =>
    intro mode acc hm _
    cases mode with
    | true => exact absurd rfl (hm rfl)
    | false =>
      obtain ⟨d, ds, rfl⟩ := List.exists_cons_of_ne_nil ha
      rw [List.all_cons, Bool.and_eq_true] at had
      obtain ⟨hd, hds⟩ := had
      simp only [List.nil_append, List.cons_append, srGo, hd, if_pos, List.append_eq]
      rw [srGo_digits ds q hds hq [d]]
      simp [srGo]
  | cons c cs ih =>
    intro mode acc _ hlast
    have hlast' : lastDigitFree cs = true := by
      cases cs with
      | nil => simp [lastDigitFree]
      | cons x xs => simpa [lastDigitFree, List.getLast?_cons_cons] using hlast
    by_cases hc : c.isDigit = true
    · have hcs : cs ≠ [] := by
        intro h
        subst h
        simp [lastDigitFree, hc] at hlast
      cases mode with
      | false =>
        simp only [List.cons_append, srGo, hc, if_pos, List.append_eq]
        rw [ih true [c] (fun _ => hcs) hlast']
      | true =>
        simp only [List.cons_append, srGo, hc, if_pos, List.append_eq]
        rw [ih true (c :: acc) (fun _ => hcs) hlast']
    · cases mode with
      | false =>
        simp only [List.cons_append, srGo, hc, if_neg, Bool.false_eq_true,
          not_false_iff, List.append_eq]
        rw [ih false (c :: acc) (by intro h; cases h) hlast']
      | true =>
        simp only [List.cons_append, srGo, hc, if_neg, Bool.false_eq_true,
          not_false_iff, List.append_eq]
        rw [ih false [c] (by intro h; cases h) hlast']

lemma splitRuns_append (p a q : List Char) (ha : a ≠ [])
    (had : a.all Char.isDigit = true) (hp : lastDigitFree p = true)
    (hq : headDigitFree q = true) :
    splitRuns (p ++ a ++ q) = splitRuns p ++ a :: splitRuns q :=
  srGo_append a q ha had hq p false [] (by intro h; cases h) hp

lemma chrCmp_refl (c : Char) : chrCmp c c = .eq := by
  simp [chrCmp, Nat.compare_eq_eq]

lemma lexCmp_refl (cmp : α → α → Ordering) (hrefl : ∀ x, cmp x x = .eq) :
    ∀ l : List α, lexCmp cmp l l = .eq := by
  intro l
  induction l with
  | nil => rfl
  | cons a as ih => simp [lexCmp, hrefl a, ih]

lemma keyCmp_refl (k : NKey) : keyCmp k k = .eq := by
  cases k with
  | s l => simp [keyCmp, lexCmp_refl chrCmp chrCmp_refl]
  | n v => simp [keyCmp, Nat.compare_eq_eq]

lemma lexCmp_append_left (cmp : α → α → Ordering) (hrefl : ∀ x, cmp x x = .eq) :
    ∀ (x l1 l2 : List α), lexCmp cmp (x ++ l1) (x ++ l2) = lexCmp cmp l1 l2 := by
  intro x
  induction x with
  | nil => intro l1 l2; rfl
  | cons a as ih => intro l1 l2; simp [lexCmp, hrefl a, ih]

lemma tryint_digits (a : List Char) (ha : a ≠ [])
    (had : a.all Char.isDigit = true) : tryint a = .n (digitsVal a) := by
  simp [tryint, ha, had]

/-- Core comparison fact: replacing a maximal digit run by one of smaller
numeric value makes the run-split key strictly smaller, whatever surrounds
it. -/
lemma runsCmp (p a b q : List Char) (ha : a ≠ []) (hb : b ≠ [])
    (had : a.all Char.isDigit = true) (hbd : b.all Char.isDigit = true)
    (hp : lastDigitFree p = true) (hq : headDigitFree q = true)
    (hv : digitsVal a < digitsVal b) :
    lexCmp keyCmp ((splitRuns (p ++ a ++ q)).map tryint)
      ((splitRuns (p ++ b ++ q)).map tryint) = .lt := by
  rw [splitRuns_append p a q ha had hp hq, splitRuns_append p b q hb hbd hp hq]
  simp only [List.map_append, List.map_cons]
  rw [lexCmp_append_left keyCmp keyCmp_refl]
  rw [tryint_digits a ha had, tryint_digits b hb hbd]
  simp [lexCmp, keyCmp, Nat.compare_eq_lt.mpr hv]

/-! ## file_processor._rename_files and the media selections -/

/-- ASCII lower-casing of a string (`str.lower()` on extensions). -/
def lowerL (l : List Char) : List Char := l.map lowc

/-- `Path(file).suffix.lower()` computed on a path's basename, as the
sources do (`file = os.path.basename(file_path)` first). -/
def extOf (p : List Char) : List Char := lowerL (pySuffix (basenameP p))

/-- Image extensions of `_rename_files` (file_processor.py line 379),
GIF included. -/
def imageExtsR : List (List Char) :=
  [".jpg", ".jpeg", ".png", ".webp", ".bmp", ".tiff", ".gif"].map String.toList

/-- Video extensions of `_rename_files` (file_processor.py line 380). -/
def videoExtsR : List (List Char) :=
  [".mp4", ".avi", ".mov", ".mkv", ".flv", ".wmv", ".3gp", ".m4v"].map String.toList

def isImageExtR (e : List Char) : Bool := imageExtsR.contains e

def isVideoExtR (e : List Char) : Bool := videoExtsR.contains e

/-- Python `f"{n:03d}"`: decimal digits left-padded with zeros to width 3. -/
def pad3 (n : Nat) : List Char :=
  let s := (Nat.repr n).toList
  List.replicate (3 - s.length) '0' ++ s

/-- Name assignment of `_rename_files` (file_processor.py lines 393-416) on
an already-sorted file list: images (GIF included) draw from the image
counter, videos from the video counter, anything else is left untouched
(`new_name` stays `None`).  Each entry is the file paired with its assigned
new name. -/
def renameAssign (imgPre vidPre : List Char) :
    Nat → Nat → List (List Char) → List (List Char × Option (List Char))
  | _, _, [] => []
  | ic, vc, f :: fs =>
    let e := extOf f
    if isImageExtR e then
      (f, some (imgPre ++ pad3 ic ++ e)) :: renameAssign imgPre vidPre (ic + 1) vc fs
    else if isVideoExtR e then
      (f, some (vidPre ++ pad3 vc ++ e)) :: renameAssign imgPre vidPre ic (vc + 1) fs
    else
      (f, none) :: renameAssign imgPre vidPre ic vc fs

/-- Stable insertion of `x` into a sorted list under the renaming
comparator: `x` goes before the first strictly greater element and after
elements of equal key, as Python's stable sort orders them. -/
def insertNat (x : List Char) : List (List Char) → List (List Char)
  | [] => [x]
  | y :: ys => if fpCmp x y = .gt then y :: insertNat x ys else x :: y :: ys

/-- `all_files.sort(key=self._natural_sort_key)`: stable ascending sort by
the natural key (insertion sort, which agrees with any stable sort for this
total preorder). -/
def sortNat : List (List Char) → List (List Char)
  | [] => []
  | x :: xs => insertNat x (sortNat xs)

/-- `_rename_files`: collect, sort naturally, then assign indices starting
at 1 for both counters. -/
def rename_files (imgPre vidPre : List Char) (files : List (List Char)) :
    List (List Char × Option (List Char)) :=
  renameAssign imgPre vidPre 1 1 (sortNat files)

/-- Count of image-class files (GIF included) in a list. -/
def countImg (l : List (List Char)) : Nat :=
  (l.filter (fun f => isImageExtR (extOf f))).length

/-- Count of video-class files in a list. -/
def countVid (l : List (List Char)) : Nat :=
  (l.filter (fun f => isVideoExtR (extOf f))).length

/-- Extensions `upload_files` accepts (api_handler.py line 102) — GIF files
are explicitly skipped there, so the set excludes `.gif`. -/
def uploadExts : List (List Char) :=
  [".jpg", ".jpeg", ".png", ".webp"].map String.toList

/-- The file set `upload_files` selects from a directory listing: the walk
plus extension filter of api_handler.py lines 107-116 (the explicit GIF
branch only skips, so the net effect is this filter). -/
def uploadSel (files : List (List Char)) : List (List Char) :=
  files.filter (fun f => uploadExts.contains (extOf f))

/-- Extensions `compress_images` re-encodes (image_processor.py line 40) —
GIF files are explicitly skipped there as well. -/
def compressExts : List (List Char) :=
  [".jpg", ".jpeg", ".png", ".bmp", ".tiff", ".heic", ".heif"].map String.toList

/-- The file set `compress_images` selects for re-encoding
(image_processor.py lines 45-54). -/
def compressSel (files : List (List Char)) : List (List Char) :=
  files.filter (fun f => compressExts.contains (extOf f))

/-! ## compression_handler.extract_file

One external-tool invocation (directory clearing included) is abstracted to
an outcome: a timeout, an exception, or a completed process with its return
code together with whether the destination ended up non-empty.  The
candidate attempts are numbered in order, `att i` being the outcome of the
attempt on the i-th candidate. -/

inductive RunOutcome where
  | timeout
  | excpt
  | exited (rc : Nat) (destNonEmpty : Bool)
deriving DecidableEq

/-- An attempt counts as a success exactly when the invocation exits with
code 0 and the destination holds at least one extracted file (the
`returncode == 0` plus `extracted_files` check on both paths of
extract_file). -/
def runOk : RunOutcome → Bool
  | .exited 0 ne => ne
  | _ => false

/-- The candidate list `all_passwords` that extract_file builds
(compression_handler.py lines 82-85): the configured passwords, then — only
when `original_name` is non-empty — the original name and its
extension-stripped form, then `""` and `"123"`. -/
def codeCandidates (passwords : List (List Char)) (orig : List Char) :
    List (List Char) :=
  passwords ++ (if orig ≠ [] then [orig, splitextRoot orig] else []) ++
    [[], ['1', '2', '3']]

/-- The candidate list as the specification words it: always
`passwordList + [originalName, originalName-without-extension] + ["", "123"]`,
with no case split on an empty original name. -/
def specCandidates (passwords : List (List Char)) (orig : List Char) :
    List (List Char) :=
  passwords ++ [orig, splitextRoot orig] ++ [[], ['1', '2', '3']]

/-- The password loop of extract_file (lines 125-167): first success wins,
a timeout or exception merely advances to the next candidate, exhaustion
fails. -/
def scanPw (att : Nat → RunOutcome) : Nat → List (List Char) → Bool
  | _, [] => false
  | i, _ :: rest => if runOk (att i) then true else scanPw att (i + 1) rest

/-- `CompressionHandler.extract_file` (compression_handler.py lines 71-170):
the no-password attempt, then the candidate scan. -/
def extract_file (noPw : RunOutcome) (att : Nat → RunOutcome)
    (passwords : List (List Char)) (orig : List Char) : Bool :=
  if runOk noPw then true else scanPw att 0 (codeCandidates passwords orig)

/-- The same protocol run over the candidate list the specification
describes, for comparison with the code's list. -/
def specExtract (noPw : RunOutcome) (att : Nat → RunOutcome)
    (passwords : List (List Char)) (orig : List Char) : Bool :=
  if runOk noPw then true else scanPw att 0 (specCandidates passwords orig)

/-! ## compression_handler._create_zst_archive

The world record holds the outcomes of the filesystem and subprocess
operations the function performs, in order: the inner standard-archive
creation (its return code / output-file checks, and whether a partial inner
file is left behind when it fails), the zstd wrapping invocation (which can
raise, e.g. a timeout), and the two best-effort `os.remove` calls. -/

structure ZstWorld where
  innerRc0 : Bool
  innerOutExists : Bool
  innerOutNonempty : Bool
  /-- the inner `.7z` file exists even though the inner creation failed
  (a partial file written before the failure) -/
  innerLeftover : Bool
  /-- the zstd wrap invocation raises (`subprocess.TimeoutExpired` etc.) -/
  zstExn : Bool
  zstRc0 : Bool
  outExists : Bool
  outNonempty : Bool
  /-- `os.remove(inner_7z_file)` succeeds in the success path -/
  removeOkS : Bool
  /-- `os.remove(inner_7z_file)` succeeds in the wrap-failure path -/
  removeOkF : Bool

/-- `_create_standard_archive`'s success condition (line 280): exit code 0
and a non-empty output file. -/
def create_standard_archive (rc0 outEx outNe : Bool) : Bool :=
  rc0 && outEx && outNe

/-- `_create_zst_archive` (compression_handler.py lines 190-247), returning
the reported result paired with whether the inner `.7z` intermediate still
exists afterwards.  The inner-failure path returns at line 209 without any
cleanup; an exception in the wrap invocation reaches the outer handler at
line 245, also without cleanup; only the success path (lines 227-232) and
the wrap-failure path (lines 237-242) attempt the best-effort removal. -/
def create_zst_archive (w : ZstWorld) : Bool × Bool :=
  let innerOk := create_standard_archive w.innerRc0 w.innerOutExists w.innerOutNonempty
  if !innerOk then (false, w.innerLeftover)
  else if w.zstExn then (false, true)
  else if w.zstRc0 && w.outExists && w.outNonempty then (true, !w.removeOkS)
  else (false, !w.removeOkF)

/-! ## api_handler.upload_files retry protocol

One HTTP attempt on a batch is abstracted to an outcome: an exception, or a
response with its status code, whether the body's application code is a
success value, and the URL list extracted from the body.  `relogin b i` is
what the re-login performed by `_handle_auth_error` would return on batch
`b`, attempt `i`. -/

inductive UpResp where
  | excpt
  | http (status : Nat) (codeOk : Bool) (urls : List (List Char))

/-- Result of the attempt loop on one batch. -/
inductive BatchResult where
  | ok (urls : List (List Char))
  /-- re-login after a 401/403 failed: `return []` at line 172 -/
  | aborted
  /-- the for-else of lines 181-183: retries exhausted, `return []` -/
  | exhausted
deriving DecidableEq

/-- The attempt loop on one batch (api_handler.py lines 140-183): success
needs HTTP 200/201, an accepted application code and a non-empty URL list;
a 401/403 runs the auth-refresh and retries the same batch only when it
succeeds; anything else consumes an attempt. -/
def batchLoop (resp : Nat → UpResp) (relogin : Nat → Bool) :
    Nat → Nat → BatchResult
  | _, 0 => .exhausted
  | i, fuel + 1 =>
    match resp i with
    | .excpt => batchLoop resp relogin (i + 1) fuel
    | .http s cOk urls =>
      if s = 200 ∨ s = 201 then
        if cOk = true ∧ urls ≠ [] then .ok urls
        else batchLoop resp relogin (i + 1) fuel
      else if s = 401 ∨ s = 403 then
        if relogin i then batchLoop resp relogin (i + 1) fuel
        else .aborted
      else batchLoop resp relogin (i + 1) fuel

/-- The batch iteration of upload_files (lines 133-186): batches in order,
each batch's URLs appended to the collected list; any non-success aborts the
whole upload.  `some urls` is the collected list, `none` the abort. -/
def uploadBatches (resp : Nat → Nat → UpResp) (relogin : Nat → Nat → Bool)
    (retries : Nat) : Nat → Nat → Option (List (List Char))
  | _, 0 => some []
  | b, rem + 1 =>
    match batchLoop (resp b) (relogin b) 0 retries with
    | .ok urls => (uploadBatches resp relogin retries (b + 1) rem).map (urls ++ ·)
    | _ => none

/-- The value upload_files returns: the collected URLs, or `[]` on abort. -/
def upload_files_result (resp : Nat → Nat → UpResp) (relogin : Nat → Nat → Bool)
    (retries nBatches : Nat) : List (List Char) :=
  match uploadBatches resp relogin retries 0 nBatches with
  | some urls => urls
  | none => []

/-- `_handle_auth_error` (api_handler.py lines 87-97): on a 401/403 the
cached token is cleared and `login` is re-run from the cleared state; on any
other status nothing happens and `False` is returned.  `login` maps the
token state at call time to (success, new token state). -/
def handle_auth_error (status : Nat) (token : List Char)
    (login : List Char → Bool × List Char) : Bool × List Char :=
  if status = 401 ∨ status = 403 then login [] else (false, token)

/-! ## file_processor cleanup

Per directory, the world records which escalation steps raise: `m1exn` for
`shutil.rmtree`, `m2exn` for the manual chmod walk's final `os.rmdir`, and
`ex2` for whether the root still exists after the failed manual walk.
`m4rc0` is the exit code of the Windows `rd /s /q` fallback. -/

structure DirWorld where
  /-- the directory exists when the cleanup pass reaches it -/
  ex0 : Bool
  m1exn : Bool
  m2exn : Bool
  ex2 : Bool
  m4rc0 : Bool

/-- `_cleanup_direct_rmtree`: `shutil.rmtree` then `not os.path.exists`;
an exception returns False. -/
def m1_rmtree (w : DirWorld) : Bool := !w.m1exn

/-- `_cleanup_recursive_delete`: the chmod walk then `os.rmdir` of the root;
no exception means the root is gone and True is returned. -/
def m2_recursive (w : DirWorld) : Bool := !w.m2exn

/-- `_cleanup_file_by_file` (file_processor.py lines 589-601): every
`os.remove` sits in its own try/except, `os.walk` swallows errors, and the
function ends in an unconditional `return True` — it reports success whether
or not the directory was removed (it never removes directories at all). -/
def m3_file_by_file (_ : DirWorld) : Bool := true

/-- `_cleanup_force_delete`: Windows-only `rd /s /q`. -/
def m4_force (isWin : Bool) (w : DirWorld) : Bool :=
  if isWin then w.m4rc0 else false

/-- `_try_cleanup_directory` (lines 532-550): the four strategies in order,
first reported success wins; every strategy call is try/except-guarded, so
the loop itself never raises. -/
def try_cleanup_directory (isWin : Bool) (w : DirWorld) : Bool :=
  if m1_rmtree w then true
  else if m2_recursive w then true
  else if m3_file_by_file w then true
  else m4_force isWin w

/-- Whether the directory still exists after the strategy sequence ran:
only the first two strategies can actually remove the root. -/
def dirExistsAfter (w : DirWorld) : Bool :=
  if m1_rmtree w then false
  else if m2_recursive w then false
  else w.ex2

structure CleanupReport where
  cleaned : Nat
  failed : Nat
  skipped : Nat
  backgroundScheduled : Bool
  backgroundDirs : List (List Char)
deriving DecidableEq

/-- The counting loop of cleanup_temp_directories (lines 504-518). -/
def cleanupCounts (isWin : Bool) (w : List Char → DirWorld) :
    List (List Char) → Nat × Nat × Nat
  | [] => (0, 0, 0)
  | d :: rest =>
    let r := cleanupCounts isWin w rest
    if !(w d).ex0 then (r.1, r.2.1, r.2.2 + 1)
    else if try_cleanup_directory isWin (w d) then (r.1 + 1, r.2.1, r.2.2)
    else (r.1, r.2.1 + 1, r.2.2)

/-- `cleanup_temp_directories` (file_processor.py lines 492-530):
deduplicate the tracked list, count cleaned/failed/skipped, and when any
directory failed hand the whole deduplicated list — not only the failed
directories — to `_schedule_background_cleanup`. -/
def cleanup_temp_directories (isWin : Bool) (dirs : List (List Char))
    (w : List Char → DirWorld) : CleanupReport :=
  let uniq := dirs.dedup
  let r := cleanupCounts isWin w uniq
  { cleaned := r.1
    failed := r.2.1
    skipped := r.2.2
    backgroundScheduled := decide (0 < r.2.1)
    backgroundDirs := if 0 < r.2.1 then uniq else [] }

/-! ## Orchestrator flows: process_file and the publish step -/

inductive PyErr where
  | attributeError (name : List Char)
  | typeError (fn : List Char)
deriving DecidableEq

/-- The methods the `APIHandler` class defines (api_handler.py lines
17-269); `fetch_categories` is not among them. -/
def apiHandlerMethods : List (List Char) :=
  ["is_token_valid", "ensure_login", "login", "_handle_auth_error",
   "upload_files", "submit_article", "_natural_sort_key",
   "test_connection"].map String.toList

/-- Python attribute lookup on the handler: a missing method raises
`AttributeError`. -/
def getattrCall (methods : List (List Char)) (name : List Char) :
    Except PyErr Unit :=
  if methods.contains name then .ok () else .error (.attributeError name)

/-- `FileProcessor.process_file` (file_processor.py lines 50-70): with
`skip_login` the dispatch runs directly; otherwise a failed login returns
False, and a successful login is followed by the
`self.api_handler.fetch_categories()` call (line 64) before the dispatch —
the method body has no try/except, so a raised error propagates.
`dispatch` abstracts the result of process_folder / process_archive. -/
def process_file (skipLogin loginOk dispatch : Bool) : Except PyErr Bool :=
  if skipLogin then .ok dispatch
  else if !loginOk then .ok false
  else
    match getattrCall apiHandlerMethods ("fetch_categories".toList) with
    | .error e => .error e
    | .ok _ => .ok dispatch

/-- The parameters of `APIHandler.submit_article` after `self`
(api_handler.py line 188): exactly three. -/
def submitArticleParams : List (List Char) :=
  ["title", "images", "cover"].map String.toList

/-- A positional call in Python: more arguments than parameters raises
`TypeError` before the body runs. -/
def callPositional (params : List (List Char)) (args : Nat)
    (body : Except PyErr Bool) : Except PyErr Bool :=
  if args ≤ params.length then body else .error (.typeError ("submit_article".toList))

/-- The upload/publish portion of the try-block shared by process_folder
(lines 136-157) and process_archive (lines 243-264), with the surrounding
`except Exception` that turns any raised error into a False return.  The
call at lines 152/259 passes four positional arguments
`(formatted_title, uploaded_urls, uploaded_urls[0], True)`.  `tailOk`
abstracts the result of the remaining steps when the publish step is passed
or skipped; `submitBody` what submit_article's body would return if it were
callable that way. -/
def publish_flow (skipLogin enableUpload enablePublish : Bool)
    (uploadedUrls : List (List Char)) (submitBody : Except PyErr Bool)
    (tailOk : Bool) : Bool :=
  let body : Except PyErr Bool :=
    if skipLogin then .ok tailOk
    else if enableUpload then
      if uploadedUrls = [] then .ok false
      else if enablePublish then
        match callPositional submitArticleParams 4 submitBody with
        | .error e => .error e
        | .ok ok => if ok then .ok tailOk else .ok false
      else .ok tailOk
    else .ok tailOk
  match body with
  | .ok b => b
  | .error _ => false

/-! ## Supporting lemmas for the claim theorems -/

lemma unnamedFallback_ne_nil (now : Nat) : unnamedFallback now ≠ [] := by
  simp [unnamedFallback]

lemma clean_filename_ne_nil (now : Nat) (x : List Char) :
    clean_filename now x ≠ [] := by
  by_cases hc : cleanSteps x = []
  · simp [clean_filename, hc, unnamedFallback]
  · simp [clean_filename, hc]

lemma scanPw_iff (att : Nat → RunOutcome) :
    ∀ (l : List (List Char)) (k : Nat),
      scanPw att k l = true ↔
        ∃ i, i < l.length ∧ runOk (att (k + i)) = true ∧
          ∀ j < i, runOk (att (k + j)) = false := by
  intro l
  induction l with
  | nil =>
    intro k
    simp [scanPw]
  | cons c rest ih =>
    intro k
    by_cases h : runOk (att k) = true
    · simp only [scanPw, h, if_pos]
      constructor
      · intro _
        exact ⟨0, by simp, by simpa using h, by omega⟩
      · intro _
        trivial
    · simp only [scanPw, h, if_neg, Bool.false_eq_true, not_false_iff]
      rw [ih (k + 1)]
      constructor
      · rintro ⟨i, hi, hok, hpre⟩
        refine ⟨i + 1, by simpa using Nat.succ_lt_succ hi, ?_, ?_⟩
        · have : k + 1 + i = k + (i + 1) := by omega
          rwa [this] at hok
        · intro j hj
          cases j with
          | zero => simpa using (Bool.not_eq_true _).mp h
          | succ j =>
            have : k + (j + 1) = k + 1 + j := by omega
            rw [this]
            exact hpre j (by omega)
      · rintro ⟨i, hi, hok, hpre⟩
        cases i with
        | zero =>
          exact absurd (by simpa using hok) h
        | succ i =>
          refine ⟨i, by simpa using Nat.lt_of_succ_lt_succ hi, ?_, ?_⟩
          · have : k + (i + 1) = k + 1 + i := by omega
            rwa [this] at hok
          · intro j hj
            have : k + 1 + j = k + (j + 1) := by omega
            rw [this]
            exact hpre (j + 1) (by omega)

lemma try_cleanup_always (isWin : Bool) (w : DirWorld) :
    try_cleanup_directory isWin w = true := by
  unfold try_cleanup_directory
  split_ifs with h1 h2 h3
  · rfl
  · rfl
  · rfl
  · exact absurd rfl h3

lemma cleanupCounts_failed_zero (isWin : Bool) (w : List Char → DirWorld) :
    ∀ l : List (List Char), (cleanupCounts isWin w l).2.1 = 0 := by
  intro l
  induction l with
  | nil => rfl
  | cons d rest ih =>
    unfold cleanupCounts
    split_ifs with h1 h2
    · simpa using ih
    · simpa using ih
    · exact absurd (try_cleanup_always isWin (w d)) h2


/-! ### The generated fallback name is a fixed point of the cleaning steps

`f"unnamed_{int(time.time())}"` is `unnamed_` followed by the decimal digits
of the timestamp.  The lemmas below show that no cleaning step touches such
a name: every character survives the filters and no removal pattern matches
at any position. -/

/-- The characters `Nat.toDigits 10` can produce: the decimal digits. -/
def decDigitChars : List Char := ['0', '1', '2', '3', '4', '5', '6', '7', '8', '9']

lemma digitChar_mem (m : Nat) (h : m < 10) : Nat.digitChar m ∈ decDigitChars := by
  have hall : ∀ k < 10, Nat.digitChar k ∈ decDigitChars := by decide
  exact hall m h

lemma toDigitsCore_mem :
    ∀ (fuel n : Nat) (ds : List Char), (∀ c ∈ ds, c ∈ decDigitChars) →
      ∀ c ∈ Nat.toDigitsCore 10 fuel n ds, c ∈ decDigitChars := by
  intro fuel
  induction fuel with
  | zero =>
    intro n ds h
    simpa [Nat.toDigitsCore] using h
  | succ fuel ih =>
    intro n ds h
    have hstep : ∀ c ∈ (Nat.digitChar (n % 10) :: ds), c ∈ decDigitChars := by
      intro c hc
      rcases List.mem_cons.mp hc with rfl | hc
      · exact digitChar_mem _ (Nat.mod_lt _ (by norm_num))
      · exact h c hc
    by_cases h0 : n / 10 = 0
    · simpa [Nat.toDigitsCore, h0] using hstep
    · simpa [Nat.toDigitsCore, h0] using ih (n / 10) _ hstep

lemma toDigitsCore_ne_nil :
    ∀ (fuel n : Nat) (ds : List Char), Nat.toDigitsCore 10 (fuel + 1) n ds ≠ [] := by
  intro fuel
  induction fuel with
  | zero =>
    intro n ds
    by_cases h0 : n / 10 = 0 <;> simp [Nat.toDigitsCore, h0]
  | succ fuel ih =>
    intro n ds
    by_cases h0 : n / 10 = 0
    · simp [Nat.toDigitsCore, h0]
    · simpa [Nat.toDigitsCore, h0] using ih (n / 10) (Nat.digitChar (n % 10) :: ds)

lemma repr_toList_eq (n : Nat) :
    (Nat.repr n).toList = Nat.toDigitsCore 10 (n + 1) n [] := rfl

lemma repr_mem_digits (n : Nat) : ∀ c ∈ (Nat.repr n).toList, c ∈ decDigitChars := by
  rw [repr_toList_eq]
  exact toDigitsCore_mem (n + 1) n [] (by simp)

lemma repr_toList_ne_nil (n : Nat) : (Nat.repr n).toList ≠ [] := by
  rw [repr_toList_eq]
  exact toDigitsCore_ne_nil n n []

lemma dec_isDigit : ∀ c ∈ decDigitChars, c.isDigit = true := by decide

lemma dec_not_space : ∀ c ∈ decDigitChars, isSpaceA c = false := by decide

lemma dec_not_trail : ∀ c ∈ decDigitChars, isTrail c = false := by decide

lemma dec_keep7 : ∀ c ∈ decDigitChars, keep7 c = true := by decide

lemma dec_ne9 : ∀ c ∈ decDigitChars,
    c ≠ 'P' ∧ c ≠ '_' ∧ c ≠ '[' ∧ c ≠ '【' ∧ c ≠ '「' ∧ c ≠ '『' := by decide

lemma dCount_cons_false (c : Char) (cs : List Char) (h : c.isDigit = false) :
    dCount (c :: cs) = 0 := by
  simp [dCount, List.takeWhile_cons, h]

lemma dCount_all_digits :
    ∀ l : List Char, (∀ c ∈ l, c.isDigit = true) → dCount l = l.length := by
  intro l
  induction l with
  | nil => intro _; rfl
  | cons c cs ih =>
    intro h
    have hc : c.isDigit = true := h c (List.mem_cons_self c cs)
    have := ih (fun x hx => h x (List.mem_cons_of_mem _ hx))
    simp only [dCount, List.takeWhile_cons, hc, if_pos, List.length_cons]
    simpa [dCount] using this

lemma m3a_none_of_head (c : Char) (cs : List Char) (h : c.isDigit = false) :
    m3a (c :: cs) = none := by
  simp [m3a, dCount_cons_false c cs h]

lemma m4a_none_of_head (c : Char) (cs : List Char) (h : c.isDigit = false) :
    m4a (c :: cs) = none := by
  simp [m4a, dCount_cons_false c cs h]

lemma m4b_none_of_head (c : Char) (cs : List Char) (h : c.isDigit = false) :
    m4b (c :: cs) = none := by
  simp [m4b, dCount_cons_false c cs h]

lemma m6_none_of_head (c : Char) (cs : List Char) (h : c.isDigit = false) :
    m6 (c :: cs) = none := by
  simp [m6, dCount_cons_false c cs h]

lemma m3b_none_of_head (c : Char) (cs : List Char) (h : c ≠ 'P') :
    m3b (c :: cs) = none := by
  unfold m3b
  split
  · rename_i r heq
    injection heq with h1 h2
    exact absurd h1 h
  · rfl

lemma m4c_none_of_head (c : Char) (cs : List Char) (h : c ≠ '_') :
    m4c (c :: cs) = none := by
  unfold m4c
  split
  · rename_i r heq
    injection heq with h1 h2
    exact absurd h1 h
  · rfl

lemma mBr_none_of_head (o cl c : Char) (cs : List Char) (h : c ≠ o) :
    mBr o cl (c :: cs) = none := by
  simp [mBr, h]

lemma matchers_none_letter (c : Char) (cs : List Char)
    (h1 : c.isDigit = false) (h2 : c ≠ 'P') (h3 : c ≠ '_')
    (h4 : c ≠ '[') (h5 : c ≠ '【') (h6 : c ≠ '「') (h7 : c ≠ '『') :
    m3a (c :: cs) = none ∧ m3b (c :: cs) = none ∧ m4a (c :: cs) = none ∧
    m4b (c :: cs) = none ∧ m4c (c :: cs) = none ∧
    mBr '[' ']' (c :: cs) = none ∧ mBr '【' '】' (c :: cs) = none ∧
    mBr '「' '」' (c :: cs) = none ∧ mBr '『' '』' (c :: cs) = none ∧
    m6 (c :: cs) = none :=
  ⟨m3a_none_of_head c cs h1, m3b_none_of_head c cs h2, m4a_none_of_head c cs h1,
   m4b_none_of_head c cs h1, m4c_none_of_head c cs h3,
   mBr_none_of_head '[' ']' c cs h4, mBr_none_of_head '【' '】' c cs h5,
   mBr_none_of_head '「' '」' c cs h6, mBr_none_of_head '『' '』' c cs h7,
   m6_none_of_head c cs h1⟩

lemma m4c_none_underscore (ds : List Char) (hmem : ∀ c ∈ ds, c ∈ decDigitChars) :
    m4c ('_' :: ds) = none := by
  have hl := dCount_all_digits ds (fun x hx => dec_isDigit x (hmem x hx))
  cases ds with
  | nil => rfl
  | cons d2 ds2 =>
    simp [m4c, hl, List.drop_length, mgtbUnit]

lemma matchers_none_digits (c : Char) (cs : List Char)
    (hmem : ∀ x ∈ (c :: cs), x ∈ decDigitChars) :
    m3a (c :: cs) = none ∧ m3b (c :: cs) = none ∧ m4a (c :: cs) = none ∧
    m4b (c :: cs) = none ∧ m4c (c :: cs) = none ∧
    mBr '[' ']' (c :: cs) = none ∧ mBr '【' '】' (c :: cs) = none ∧
    mBr '「' '」' (c :: cs) = none ∧ mBr '『' '』' (c :: cs) = none ∧
    m6 (c :: cs) = none := by
  have hcd := hmem c (List.mem_cons_self c cs)
  obtain ⟨hP, hU, hB1, hB2, hB3, hB4⟩ := dec_ne9 c hcd
  have hall : ∀ x ∈ (c :: cs), x.isDigit = true := fun x hx => dec_isDigit x (hmem x hx)
  have hlen := dCount_all_digits (c :: cs) hall
  refine ⟨?_, m3b_none_of_head c cs hP, ?_, ?_, m4c_none_of_head c cs hU,
    mBr_none_of_head '[' ']' c cs hB1, mBr_none_of_head '【' '】' c cs hB2,
    mBr_none_of_head '「' '」' c cs hB3, mBr_none_of_head '『' '』' c cs hB4, ?_⟩
  · simp [m3a, hlen, List.drop_length]
  · simp [m4a, hlen, List.drop_length, m4aTail]
  · simp [m4b, hlen, List.drop_length, m4bTail]
  · simp [m6, hlen, List.drop_length]

/-- No removal pattern of the scanned substitution steps matches at any
position of `unnamed_` followed by decimal digits. -/
lemma matchers_none_unnamed (ds : List Char) (hmem : ∀ c ∈ ds, c ∈ decDigitChars) :
    ∀ c cs, (c :: cs) <:+ ('u' :: 'n' :: 'n' :: 'a' :: 'm' :: 'e' :: 'd' :: '_' :: ds) →
      m3a (c :: cs) = none ∧ m3b (c :: cs) = none ∧ m4a (c :: cs) = none ∧
      m4b (c :: cs) = none ∧ m4c (c :: cs) = none ∧
      mBr '[' ']' (c :: cs) = none ∧ mBr '【' '】' (c :: cs) = none ∧
      mBr '「' '」' (c :: cs) = none ∧ mBr '『' '』' (c :: cs) = none ∧
      m6 (c :: cs) = none := by
  intro c cs hs
  rcases List.suffix_cons_iff.mp hs with heq | hs
  · injection heq with h1 h2
    subst h1; subst h2
    exact matchers_none_letter _ _ (by decide) (by decide) (by decide) (by decide)
      (by decide) (by decide) (by decide)
  rcases List.suffix_cons_iff.mp hs with heq | hs
  · injection heq with h1 h2
    subst h1; subst h2
    exact matchers_none_letter _ _ (by decide) (by decide) (by decide) (by decide)
      (by decide) (by decide) (by decide)
  rcases List.suffix_cons_iff.mp hs with heq | hs
  · injection heq with h1 h2
    subst h1; subst h2
    exact matchers_none_letter _ _ (by decide) (by decide) (by decide) (by decide)
      (by decide) (by decide) (by decide)
  rcases List.suffix_cons_iff.mp hs with heq | hs
  · injection heq with h1 h2
    subst h1; subst h2
    exact matchers_none_letter _ _ (by decide) (by decide) (by decide) (by decide)
      (by decide) (by decide) (by decide)
  rcases List.suffix_cons_iff.mp hs with heq | hs
  · injection heq with h1 h2
    subst h1; subst h2
    exact matchers_none_letter _ _ (by decide) (by decide) (by decide) (by decide)
      (by decide) (by decide) (by decide)
  rcases List.suffix_cons_iff.mp hs with heq | hs
  · injection heq with h1 h2
    subst h1; subst h2
    exact matchers_none_letter _ _ (by decide) (by decide) (by decide) (by decide)
      (by decide) (by decide) (by decide)
  rcases List.suffix_cons_iff.mp hs with heq | hs
  · injection heq with h1 h2
    subst h1; subst h2
    exact matchers_none_letter _ _ (by decide) (by decide) (by decide) (by decide)
      (by decide) (by decide) (by decide)
  rcases List.suffix_cons_iff.mp hs with heq | hs
  · injection heq with h1 h2
    subst h1; subst h2
    refine ⟨m3a_none_of_head _ _ (by decide), m3b_none_of_head _ _ (by decide),
      m4a_none_of_head _ _ (by decide), m4b_none_of_head _ _ (by decide),
      m4c_none_underscore _ hmem,
      mBr_none_of_head '[' ']' _ _ (by decide), mBr_none_of_head '【' '】' _ _ (by decide),
      mBr_none_of_head '「' '」' _ _ (by decide), mBr_none_of_head '『' '』' _ _ (by decide),
      m6_none_of_head _ _ (by decide)⟩
  · exact matchers_none_digits c cs (fun x hx => hmem x (hs.subset hx))

/-- A scanned substitution whose pattern matches nowhere leaves the text
unchanged. -/
lemma scanSub_id (m : List Char → Option Nat) :
    ∀ l : List Char, (∀ c cs, (c :: cs) <:+ l → m (c :: cs) = none) →
      ∀ fuel, scanSub m fuel l = l := by
  intro l
  induction l with
  | nil =>
    intro _ fuel
    cases fuel <;> rfl
  | cons c cs ih =>
    intro h fuel
    cases fuel with
    | zero => rfl
    | succ fuel =>
      have hm : m (c :: cs) = none := h c cs (List.suffix_refl _)
      simp only [scanSub, hm]
      rw [ih (fun d es hs => h d es (hs.trans (List.suffix_cons c cs))) fuel]

lemma step1_id_of_head (c : Char) (cs : List Char) (h : c.isDigit = false) :
    step1 (c :: cs) = c :: cs := by
  simp [step1, List.takeWhile_cons, h]

lemma step4d_id_of_head (c : Char) (cs : List Char) (h : c.isDigit = false) :
    step4d (c :: cs) = c :: cs := by
  simp [step4d, dCount_cons_false c cs h]

lemma collapseWs_id :
    ∀ l : List Char, (∀ c ∈ l, isSpaceA c = false) → collapseWs l = l := by
  intro l
  induction l with
  | nil => intro _; rfl
  | cons c cs ih =>
    intro h
    have hc : isSpaceA c = false := h c (List.mem_cons_self c cs)
    cases cs with
    | nil => simp [collapseWs, hc]
    | cons c2 cs2 =>
      have h2 : isSpaceA c2 = false := h c2 (by simp)
      have ht := ih (fun x hx => h x (List.mem_cons_of_mem _ hx))
      simp only [collapseWs, hc, h2, Bool.false_and, if_neg, Bool.false_eq_true,
        not_false_iff]
      rw [ht]

lemma rstripTrail_id (l : List Char) (h : ∀ c, l.getLast? = some c → isTrail c = false) :
    rstripTrail l = l := by
  unfold rstripTrail
  cases hrev : l.reverse with
  | nil => simp [List.reverse_eq_nil_iff.mp hrev]
  | cons c t =>
    have hc : isTrail c = false := by
      refine h c ?_
      rw [← List.head?_reverse, hrev]
      rfl
    rw [List.dropWhile_cons, hc]
    simp [← hrev]

lemma stripWs_id (l : List Char) (hh : ∀ c, l.head? = some c → isSpaceA c = false)
    (hl : ∀ c, l.getLast? = some c → isSpaceA c = false) : stripWs l = l := by
  unfold stripWs
  have h1 : l.dropWhile isSpaceA = l := by
    cases l with
    | nil => rfl
    | cons c cs => rw [List.dropWhile_cons, hh c rfl]; rfl
  rw [h1]
  cases hrev : l.reverse with
  | nil => simp [List.reverse_eq_nil_iff.mp hrev]
  | cons c t =>
    have hc : isSpaceA c = false := by
      refine hl c ?_
      rw [← List.head?_reverse, hrev]
      rfl
    rw [List.dropWhile_cons, hc]
    simp [← hrev]

/-- The generated fallback name is a fixed point of the cleaning steps: no
step of `clean_filename` changes `unnamed_<n>`. -/
lemma cleanSteps_unnamed (now : Nat) :
    cleanSteps (unnamedFallback now) = unnamedFallback now := by
  have hmem := repr_mem_digits now
  have hne := repr_toList_ne_nil now
  show cleanSteps ('u' :: 'n' :: 'n' :: 'a' :: 'm' :: 'e' :: 'd' :: '_' :: (Nat.repr now).toList) =
    'u' :: 'n' :: 'n' :: 'a' :: 'm' :: 'e' :: 'd' :: '_' :: (Nat.repr now).toList
  set ds := (Nat.repr now).toList with hds
  set L : List Char := 'u' :: 'n' :: 'n' :: 'a' :: 'm' :: 'e' :: 'd' :: '_' :: ds with hL
  have hMn := matchers_none_unnamed ds hmem
  have s3 : ∀ fuel, scanSub m3a fuel L = L :=
    scanSub_id m3a L (fun c cs hs => (hMn c cs hs).1)
  have s3b : ∀ fuel, scanSub m3b fuel L = L :=
    scanSub_id m3b L (fun c cs hs => (hMn c cs hs).2.1)
  have s4a : ∀ fuel, scanSub m4a fuel L = L :=
    scanSub_id m4a L (fun c cs hs => (hMn c cs hs).2.2.1)
  have s4b : ∀ fuel, scanSub m4b fuel L = L :=
    scanSub_id m4b L (fun c cs hs => (hMn c cs hs).2.2.2.1)
  have s4c : ∀ fuel, scanSub m4c fuel L = L :=
    scanSub_id m4c L (fun c cs hs => (hMn c cs hs).2.2.2.2.1)
  have s5a : ∀ fuel, scanSub (mBr '[' ']') fuel L = L :=
    scanSub_id _ L (fun c cs hs => (hMn c cs hs).2.2.2.2.2.1)
  have s5b : ∀ fuel, scanSub (mBr '【' '】') fuel L = L :=
    scanSub_id _ L (fun c cs hs => (hMn c cs hs).2.2.2.2.2.2.1)
  have s5c : ∀ fuel, scanSub (mBr '「' '」') fuel L = L :=
    scanSub_id _ L (fun c cs hs => (hMn c cs hs).2.2.2.2.2.2.2.1)
  have s5d : ∀ fuel, scanSub (mBr '『' '』') fuel L = L :=
    scanSub_id _ L (fun c cs hs => (hMn c cs hs).2.2.2.2.2.2.2.2.1)
  have s6 : ∀ fuel, scanSub m6 fuel L = L :=
    scanSub_id m6 L (fun c cs hs => (hMn c cs hs).2.2.2.2.2.2.2.2.2)
  have e1 : step1 L = L := step1_id_of_head _ _ (by decide)
  have e2 : step2 L = L := rfl
  have e4d : step4d L = L := step4d_id_of_head _ _ (by decide)
  have hlastDS : ∀ c, L.getLast? = some c → c ∈ decDigitChars := by
    intro c hc
    obtain ⟨d0, dtl, hds0⟩ := List.exists_cons_of_ne_nil hne
    rw [hL, hds0] at hc
    simp only [List.getLast?_cons_cons] at hc
    refine hmem c ?_
    rw [hds0]
    exact List.mem_of_mem_getLast? hc
  have e7 : L.filter keep7 = L := by
    refine List.filter_eq_self.mpr ?_
    intro c hc
    rw [hL] at hc
    simp only [List.mem_cons] at hc
    rcases hc with rfl | rfl | rfl | rfl | rfl | rfl | rfl | rfl | hc
    · decide
    · decide
    · decide
    · decide
    · decide
    · decide
    · decide
    · decide
    · exact dec_keep7 c (hmem c hc)
  have e8a : collapseWs L = L := by
    refine collapseWs_id L ?_
    intro c hc
    rw [hL] at hc
    simp only [List.mem_cons] at hc
    rcases hc with rfl | rfl | rfl | rfl | rfl | rfl | rfl | rfl | hc
    · decide
    · decide
    · decide
    · decide
    · decide
    · decide
    · decide
    · decide
    · exact dec_not_space c (hmem c hc)
  have e8b : rstripTrail L = L :=
    rstripTrail_id L (fun c hc => dec_not_trail c (hlastDS c hc))
  have e8c : stripWs L = L := by
    refine stripWs_id L ?_ (fun c hc => dec_not_space c (hlastDS c hc))
    intro c hc
    rw [hL] at hc
    injection hc with hcu
    rw [← hcu]
    decide
  simp only [cleanSteps]
  rw [e1, e2]
  rw [s3 _, s3b _, s4a _, s4b _, s4c _]
  rw [e4d]
  rw [s5a _, s5b _, s5c _, s5d _, s6 _]
  rw [e7, e8a, e8b]
  exact e8c

/-! ## Claim theorems -/

/-- Claim C1, counterexample: with an empty original name the code's
candidate list omits the original-name candidates the claim prescribes, so
the candidate sequence is not "exactly" the claimed one, and a world whose
third attempt is the successful one makes the claimed protocol succeed while
the code fails. -/
theorem extract_candidates_counterexample :
    codeCandidates [] [] ≠ specCandidates [] [] ∧
    extract_file .excpt (fun i => if i = 2 then .exited 0 true else .exited 1 false)
      [] [] = false ∧
    specExtract .excpt (fun i => if i = 2 then .exited 0 true else .exited 1 false)
      [] [] = true := by
  refine ⟨by decide, by decide, by decide⟩

/-- Claim C1, amended: extract_file returns success exactly when the
no-password attempt exits successfully with a non-empty destination, or the
first candidate — in the order: configured password list, then (only when
the original name is non-empty) the original name and the original name
without extension, then the empty string, then "123" — whose invocation
exits successfully and leaves a non-empty destination exists; timeouts and
errors on earlier candidates merely advance the scan, and exhausting all
candidates fails. -/
theorem extract_file_first_success (noPw : RunOutcome) (att : Nat → RunOutcome)
    (passwords : List (List Char)) (orig : List Char) :
    extract_file noPw att passwords orig = true ↔
      runOk noPw = true ∨
        ∃ i, i < (codeCandidates passwords orig).length ∧ runOk (att i) = true ∧
          ∀ j < i, runOk (att j) = false := by
  unfold extract_file
  by_cases h : runOk noPw = true
  · simp [h]
  · simp only [h, if_neg, Bool.false_eq_true, not_false_iff, false_or]
    simpa using scanPw_iff att (codeCandidates passwords orig) 0

/-- Claim C4, counterexample: cleaning is not idempotent — on
`[x]12-foo` the first pass removes the bracketed span and exposes a
leading numeric prefix that only the second pass removes. -/
theorem clean_not_idempotent :
    clean_filename 0 (clean_filename 0 ("[x]12-foo".toList)) ≠
      clean_filename 0 ("[x]12-foo".toList) := by decide

/-- Claim C4, amended: clean is idempotent exactly on those inputs whose
cleaned result the cleaning steps leave fixed — `clean (clean x) = clean x`
holds if and only if the cleaning steps do not change `clean x` (the only
other way a second pass could reproduce its input, via the generated
fallback, is impossible because `unnamed_<n>` is itself a fixed point of the
cleaning steps). -/
theorem clean_idempotent_iff_fixed (now : Nat) (x : List Char) :
    clean_filename now (clean_filename now x) = clean_filename now x ↔
      cleanSteps (clean_filename now x) = clean_filename now x := by
  constructor
  · intro h
    by_cases hc : cleanSteps (clean_filename now x) = []
    · exfalso
      have hy : clean_filename now (clean_filename now x) = unnamedFallback now := by
        show (if cleanSteps (clean_filename now x) = [] then unnamedFallback now
          else cleanSteps (clean_filename now x)) = unnamedFallback now
        rw [if_pos hc]
      rw [h] at hy
      rw [hy, cleanSteps_unnamed] at hc
      exact unnamedFallback_ne_nil now hc
    · have hy : clean_filename now (clean_filename now x) = cleanSteps (clean_filename now x) := by
        show (if cleanSteps (clean_filename now x) = [] then unnamedFallback now
          else cleanSteps (clean_filename now x)) = cleanSteps (clean_filename now x)
        rw [if_neg hc]
      rw [← hy, h]
  · intro h
    have hne := clean_filename_ne_nil now x
    show (if cleanSteps (clean_filename now x) = [] then unnamedFallback now
      else cleanSteps (clean_filename now x)) = clean_filename now x
    rw [h]
    simp [hne]

/-- Claim C4, witness: the iff applied at a concrete fixed-point input, on
which idempotence therefore holds. -/
theorem clean_idempotent_witness :
    clean_filename 0 (clean_filename 0 ("foo".toList)) = clean_filename 0 ("foo".toList) :=
  (clean_idempotent_iff_fixed 0 ("foo".toList)).mpr (by decide)

/-- Claim C5, counterexample: the function is not deterministic across
calls — an input whose cleaned result is empty gets a fallback stamped with
the call time, so two calls at different seconds differ. -/
theorem clean_time_dependent :
    clean_filename 0 ("".toList) ≠ clean_filename 1 ("".toList) ∧
    clean_filename 0 ("".toList) = "unnamed_0".toList ∧
    clean_filename 1 ("".toList) = "unnamed_1".toList := by
  refine ⟨by decide, by decide, by decide⟩

/-- Claim C5, amended: clean (a total function of the input and the call
time) always returns a non-empty name; it is independent of the call time —
hence deterministic — on every input whose cleaned result is non-empty, and
on inputs whose cleaned result is empty it returns the synthesized
`unnamed_<unix-seconds>` of the call time. -/
theorem clean_total_fallback (t1 t2 : Nat) (x : List Char) :
    (clean_filename t1 x ≠ []) ∧
    (cleanSteps x ≠ [] → clean_filename t1 x = clean_filename t2 x) ∧
    (cleanSteps x ≠ [] → clean_filename t1 x = cleanSteps x) ∧
    (cleanSteps x = [] → clean_filename t1 x = unnamedFallback t1) := by
  refine ⟨clean_filename_ne_nil t1 x, ?_, ?_, ?_⟩
  · intro h
    simp [clean_filename, h]
  · intro h
    simp [clean_filename, h]
  · intro h
    simp [clean_filename, h]

/-- Claim C6, counterexample: when the inner 7z creation fails after
writing a partial intermediate file, `_create_zst_archive` reports failure
without attempting any deletion, and the intermediate plain-format file
remains. -/
theorem zst_leftover_counterexample :
    create_zst_archive
      ⟨false, true, true, true, false, true, true, true, true, true⟩ =
      (false, true) := by decide

/-- Claim C6, amended: the double-wrapped path produces the inner 7z
intermediate first and succeeds exactly when both stages succeed; on
success the intermediate is deleted best-effort (it remains when the remove
fails); on failure of the wrap invocation's result checks the intermediate
is deleted best-effort; but on inner-stage failure, or when the wrap
invocation raises, no deletion is attempted, so a leftover intermediate can
remain. -/
theorem zst_archive_characterization (w : ZstWorld) :
    create_zst_archive w =
      (create_standard_archive w.innerRc0 w.innerOutExists w.innerOutNonempty &&
        !w.zstExn && w.zstRc0 && w.outExists && w.outNonempty,
       if !(create_standard_archive w.innerRc0 w.innerOutExists w.innerOutNonempty) then
         w.innerLeftover
       else if w.zstExn then true
       else if w.zstRc0 && w.outExists && w.outNonempty then !w.removeOkS
       else !w.removeOkF) := by
  obtain ⟨a, b, c, d, e, f, g, h, i, j⟩ := w
  cases a <;> cases b <;> cases c <;> cases e <;> cases f <;> cases g <;> cases h <;> rfl

/-- Claim C8, counterexample: a directory on which both removing strategies
raise still exists after all strategies, yet `_try_cleanup_directory`
reports success (the file-by-file strategy returns True unconditionally), so
the run records it cleaned, records zero failures and schedules no
background retry. -/
theorem cleanup_counterexample :
    try_cleanup_directory false ⟨true, true, true, true, false⟩ = true ∧
    dirExistsAfter ⟨true, true, true, true, false⟩ = true ∧
    cleanup_temp_directories false [['d']]
      (fun _ => ⟨true, true, true, true, false⟩) = ⟨1, 0, 0, false, []⟩ := by
  refine ⟨by decide, by decide, by decide⟩

/-- Claim C8, amended: cleanup never throws (every strategy call is
try/except-guarded and each strategy is itself a total catch-all) and tries
the four escalation strategies in order; but because the third strategy
reports success unconditionally — even when the directory still exists — no
directory is ever recorded as failed, and the detached background retry
(which the code would hand the entire deduplicated tracked list, not only
the failed directories) is never scheduled. -/
theorem cleanup_never_fails (isWin : Bool) (dirs : List (List Char))
    (w : List Char → DirWorld) :
    (∀ v : DirWorld, try_cleanup_directory isWin v = true) ∧
    (cleanup_temp_directories isWin dirs w).failed = 0 ∧
    (cleanup_temp_directories isWin dirs w).backgroundScheduled = false ∧
    (cleanup_temp_directories isWin dirs w).backgroundDirs = [] := by
  have hz := cleanupCounts_failed_zero isWin w dirs.dedup
  refine ⟨try_cleanup_always isWin, ?_, ?_, ?_⟩
  · simpa [cleanup_temp_directories] using hz
  · simp [cleanup_temp_directories, hz]
  · simp [cleanup_temp_directories, hz]

/-- Claim C9: with `skip_login` false and a successful login, process_file
reaches the `fetch_categories` call, which does not exist on APIHandler, and
raises AttributeError instead of returning a boolean — before any staging,
packaging or upload; consequently process_file returns success only when
`skip_login` is true. -/
theorem process_file_fetch_categories (skipLogin loginOk dispatch : Bool) :
    (skipLogin = false → loginOk = true →
      process_file skipLogin loginOk dispatch =
        .error (.attributeError ("fetch_categories".toList))) ∧
    (process_file skipLogin loginOk dispatch = .ok true → skipLogin = true) := by
  cases skipLogin <;> cases loginOk <;> cases dispatch <;>
    simp [process_file, getattrCall, apiHandlerMethods]

/-- Claim C10: the orchestrator passes four positional arguments to
submit_article, which accepts only three, so every such call raises
TypeError; hence whenever upload succeeded (non-empty URL list), publishing
is enabled and login was not skipped, the publish step cannot succeed and
the job is reported failed. -/
theorem submit_article_arity_failure :
    (∀ body : Except PyErr Bool,
        callPositional submitArticleParams 4 body =
          .error (.typeError ("submit_article".toList))) ∧
    (∀ (skipLogin enableUpload enablePublish tailOk : Bool)
        (urls : List (List Char)) (submitBody : Except PyErr Bool),
        skipLogin = false → enableUpload = true → enablePublish = true →
        urls ≠ [] →
        publish_flow skipLogin enableUpload enablePublish urls submitBody tailOk =
          false) := by
  constructor
  · intro body
    simp [callPositional, submitArticleParams]
  · rintro _ _ _ tailOk urls submitBody rfl rfl rfl hne
    simp [publish_flow, hne, callPositional, submitArticleParams]

/-- Claim C2, counterexample: the renaming comparator
(`FileProcessor._natural_sort_key`) does not compare the directory path
lexicographically — on two paths with identical filenames whose directory
parts compare `.gt` as strings, it still orders the numerically smaller
directory first, because it splits the whole path (directories included)
into runs. -/
theorem natural_key_counterexample :
    fpCmp ("d2/a".toList) ("d10/a".toList) = .lt ∧
    lexCmp chrCmp (ospSplit ("d2/a".toList)).1 (ospSplit ("d10/a".toList)).1 = .gt ∧
    (ospSplit ("d2/a".toList)).2 = (ospSplit ("d10/a".toList)).2 := by
  refine ⟨by decide, by decide, by decide⟩

/-- Claim C2, amended: both comparators order an embedded numeric run by its
numeric value — for any two texts differing only in one maximal digit run,
the smaller number orders first regardless of string length; the
upload-ordering comparator additionally compares the directory part
lexicographically first, while the renaming comparator naturalizes the whole
path, directory components included. -/
theorem natural_order_numeric_runs (p a b q u v d : List Char)
    (ha : a ≠ []) (hb : b ≠ [])
    (had : a.all Char.isDigit = true) (hbd : b.all Char.isDigit = true)
    (hp : lastDigitFree p = true) (hq : headDigitFree q = true)
    (hv : digitsVal a < digitsVal b)
    (hu : ospSplit u = (d, p ++ a ++ q)) (hw : ospSplit v = (d, p ++ b ++ q)) :
    fpCmp (p ++ a ++ q) (p ++ b ++ q) = .lt ∧ apiCmp u v = .lt := by
  have core := runsCmp p a b q ha hb had hbd hp hq hv
  constructor
  · simpa [fpCmp, natKeyFP] using core
  · simp only [apiCmp, natKeyAPI, hu, hw]
    simpa [lexCmp, keyCmp_refl] using core

/-- Claim C2, witness: `img2.jpg` sorts before `img10.jpg` under both
comparators, the shorter string with the smaller number first. -/
theorem natural_order_witness :
    fpCmp ("img".toList ++ "2".toList ++ ".jpg".toList)
      ("img".toList ++ "10".toList ++ ".jpg".toList) = .lt ∧
    apiCmp ("dir/img2.jpg".toList) ("dir/img10.jpg".toList) = .lt :=
  natural_order_numeric_runs ("img".toList) ("2".toList) ("10".toList)
    (".jpg".toList) ("dir/img2.jpg".toList) ("dir/img10.jpg".toList)
    ("dir".toList) (by decide) (by decide) (by decide) (by decide) (by decide)
    (by decide) (by decide) (by decide) (by decide)

/-- Positional characterization of the rename assignment: the i-th visited
file keeps its path; an image-class file (GIF included) is assigned the
image prefix with the image counter advanced by every earlier image-class
file, a video-class file likewise on the separate video counter, anything
else gets no new name. -/
lemma renameAssign_get? (P V : List Char) :
    ∀ (l : List (List Char)) (ic vc i : Nat),
      (renameAssign P V ic vc l).get? i = (l.get? i).map (fun f =>
        (f,
          if isImageExtR (extOf f) then
            some (P ++ pad3 (ic + countImg (l.take i)) ++ extOf f)
          else if isVideoExtR (extOf f) then
            some (V ++ pad3 (vc + countVid (l.take i)) ++ extOf f)
          else none)) := by
  intro l
  induction l with
  | nil =>
    intro ic vc i
    simp [renameAssign]
  | cons f fs ih =>
    intro ic vc i
    by_cases h1 : isImageExtR (extOf f) = true
    · have hno : isVideoExtR (extOf f) = false := by
        have hall : ∀ e ∈ imageExtsR, isVideoExtR e = false := by decide
        exact hall _ (List.elem_iff.mp h1)
      cases i with
      | zero => simp [renameAssign, h1, countImg]
      | succ n =>
        simp only [renameAssign, h1, if_pos, List.get?_cons_succ, List.take_succ_cons]
        rw [ih (ic + 1) vc n]
        have hcount : countImg (f :: fs.take n) = countImg (fs.take n) + 1 := by
          simp [countImg, List.filter_cons, h1]
        have hcv : countVid (f :: fs.take n) = countVid (fs.take n) := by
          simp [countVid, List.filter_cons, hno]
        rw [hcount, hcv]
        have harith : ∀ k : Nat, ic + 1 + k = ic + (k + 1) := by omega
        simp [harith]
    · by_cases h2 : isVideoExtR (extOf f) = true
      · cases i with
        | zero => simp [renameAssign, h1, h2, countVid]
        | succ n =>
          simp only [renameAssign, h1, h2, if_pos, if_neg, Bool.false_eq_true,
            not_false_iff, List.get?_cons_succ, List.take_succ_cons]
          rw [ih ic (vc + 1) n]
          have hcount : countVid (f :: fs.take n) = countVid (fs.take n) + 1 := by
            simp [countVid, List.filter_cons, h2]
          have hci : countImg (f :: fs.take n) = countImg (fs.take n) := by
            simp [countImg, List.filter_cons, h1]
          rw [hcount, hci]
          have harith : ∀ k : Nat, vc + 1 + k = vc + (k + 1) := by omega
          simp [harith]
      · cases i with
        | zero => simp [renameAssign, h1, h2]
        | succ n =>
          simp only [renameAssign, h1, h2, if_neg, Bool.false_eq_true,
            not_false_iff, List.get?_cons_succ, List.take_succ_cons]
          rw [ih ic vc n]
          have hci : countImg (f :: fs.take n) = countImg (fs.take n) := by
            simp [countImg, List.filter_cons, h1]
          have hcv : countVid (f :: fs.take n) = countVid (fs.take n) := by
            simp [countVid, List.filter_cons, h2]
          rw [hci, hcv]

/-- Claim C3: the rename pass visits the files in natural order and assigns
sequential zero-padded 3-digit indices — the i-th visited file is an
image-class file (GIF included, on the same image counter) and becomes
`imgPre ++ pad3 (1 + earlier image-class files) ++ ext`, or a video-class
file on the separate video counter, or is left untouched; `.gif` is
image-class for renaming, yet no file selected for upload or for re-encoding
is a GIF. -/
theorem rename_assigns_and_gif_excluded (imgPre vidPre : List Char)
    (files : List (List Char)) (i : Nat) :
    ((rename_files imgPre vidPre files).get? i =
      ((sortNat files).get? i).map (fun f =>
        (f,
          if isImageExtR (extOf f) then
            some (imgPre ++ pad3 (1 + countImg ((sortNat files).take i)) ++ extOf f)
          else if isVideoExtR (extOf f) then
            some (vidPre ++ pad3 (1 + countVid ((sortNat files).take i)) ++ extOf f)
          else none))) ∧
    isImageExtR (".gif".toList) = true ∧
    (∀ f, f ∈ uploadSel files → extOf f ≠ ".gif".toList) ∧
    (∀ f, f ∈ compressSel files → extOf f ≠ ".gif".toList) := by
  refine ⟨?_, by decide, ?_, ?_⟩
  · exact renameAssign_get? imgPre vidPre (sortNat files) 1 1 i
  · intro f hf heq
    have hpred := (List.mem_filter.mp hf).2
    rw [heq] at hpred
    exact absurd hpred (by decide)
  · intro f hf heq
    have hpred := (List.mem_filter.mp hf).2
    rw [heq] at hpred
    exact absurd hpred (by decide)

lemma uploadBatches_some (resp : Nat → Nat → UpResp) (relogin : Nat → Nat → Bool)
    (retries : Nat) :
    ∀ (rem b : Nat) (u : List (List Char)),
      uploadBatches resp relogin retries b rem = some u →
      ∃ f : Nat → List (List Char),
        (∀ k, k < rem →
          batchLoop (resp (b + k)) (relogin (b + k)) 0 retries = .ok (f k)) ∧
        u = ((List.range rem).map f).flatten := by
  intro rem
  induction rem with
  | zero =>
    intro b u hu
    refine ⟨fun _ => [], by omega, ?_⟩
    simp [uploadBatches] at hu
    simp [← hu]
  | succ rem ih =>
    intro b u hu
    unfold uploadBatches at hu
    cases hb : batchLoop (resp b) (relogin b) 0 retries with
    | ok urls =>
      rw [hb] at hu
      obtain ⟨u1, hu1, rfl⟩ := Option.map_eq_some'.mp hu
      obtain ⟨f1, hf1, rfl⟩ := ih (b + 1) u1 hu1
      refine ⟨fun k => match k with | 0 => urls | k + 1 => f1 k, ?_, ?_⟩
      · intro k hk
        cases k with
        | zero => simpa using hb
        | succ j =>
          have harith : b + (j + 1) = b + 1 + j := by omega
          rw [harith]
          exact hf1 j (by omega)
      · rw [List.range_succ_eq_map]
        have hcomp : ((fun k => match k with | 0 => urls | k + 1 => f1 k) ∘ Nat.succ) = f1 :=
          funext fun _ => rfl
        simp [List.map_map, hcomp]
    | aborted => rw [hb] at hu; cases hu
    | exhausted => rw [hb] at hu; cases hu

lemma uploadBatches_none (resp : Nat → Nat → UpResp) (relogin : Nat → Nat → Bool)
    (retries : Nat) :
    ∀ (rem b k : Nat), k < rem →
      (∀ u, batchLoop (resp (b + k)) (relogin (b + k)) 0 retries ≠ .ok u) →
      uploadBatches resp relogin retries b rem = none := by
  intro rem
  induction rem with
  | zero => omega
  | succ rem ih =>
    intro b k hk hfail
    unfold uploadBatches
    cases hb : batchLoop (resp b) (relogin b) 0 retries with
    | ok urls =>
      cases k with
      | zero => exact absurd (by simpa using hb) (hfail urls)
      | succ j =>
        have hnone : uploadBatches resp relogin retries (b + 1) rem = none := by
          refine ih (b + 1) j (by omega) ?_
          have harith : b + 1 + j = b + (j + 1) := by omega
          rw [harith]
          exact hfail
        rw [hnone]
        rfl
    | aborted => rfl
    | exhausted => rfl

/-- Claim C7: the batch-upload retry protocol of upload_files.  (a) A
401/403 clears the cached token and re-runs login; (b) on a 401/403 attempt
the same batch is retried exactly when that re-login succeeds, and a
re-login failure aborts the batch; (c) the overall result is either the
empty list or the per-batch first-success URL lists joined in batch order —
never a partial set; (d) any batch on which no attempt within the configured
retries succeeds (re-login failure or exhaustion) makes the whole upload
return the empty list. -/
theorem upload_retry_protocol :
    (∀ (tok : List Char) (login : List Char → Bool × List Char),
        handle_auth_error 401 tok login = login [] ∧
        handle_auth_error 403 tok login = login []) ∧
    (∀ (resp : Nat → UpResp) (relogin : Nat → Bool) (i fuel : Nat)
        (cOk : Bool) (urls : List (List Char)),
        resp i = .http 401 cOk urls →
        batchLoop resp relogin i (fuel + 1) =
          if relogin i = true then batchLoop resp relogin (i + 1) fuel
          else .aborted) ∧
    (∀ (resp : Nat → Nat → UpResp) (relogin : Nat → Nat → Bool)
        (retries nB : Nat),
        upload_files_result resp relogin retries nB = [] ∨
        ∃ f : Nat → List (List Char),
          (∀ b, b < nB → batchLoop (resp b) (relogin b) 0 retries = .ok (f b)) ∧
          upload_files_result resp relogin retries nB =
            ((List.range nB).map f).flatten) ∧
    (∀ (resp : Nat → Nat → UpResp) (relogin : Nat → Nat → Bool)
        (retries nB k : Nat), k < nB →
        (∀ u, batchLoop (resp k) (relogin k) 0 retries ≠ .ok u) →
        upload_files_result resp relogin retries nB = []) := by
  refine ⟨?_, ?_, ?_, ?_⟩
  · intro tok login
    exact ⟨rfl, rfl⟩
  · intro resp relogin i fuel cOk urls h
    simp only [batchLoop, h]
    norm_num
  · intro resp relogin retries nB
    cases hu : uploadBatches resp relogin retries 0 nB with
    | none =>
      left
      simp [upload_files_result, hu]
    | some u =>
      right
      obtain ⟨f, hf, rfl⟩ := uploadBatches_some resp relogin retries nB 0 u hu
      refine ⟨f, ?_, ?_⟩
      · intro b hb
        simpa using hf b hb
      · simp [upload_files_result, hu]
  · intro resp relogin retries nB k hk hfail
    have hnone : uploadBatches resp relogin retries 0 nB = none := by
      refine uploadBatches_none resp relogin retries nB 0 k hk ?_
      simpa using hfail
    simp [upload_files_result, hnone]

end Picart
